import Mathlib

/-!
Verification development for the multi-peer voice connection core of the
Wire bot framework (src/src/VoiceConnection.js).  Each section embeds one
part of the JavaScript source as executable Lean definitions and proves
the spec claims about it.  WebRTC, the signalling socket and the decoder
subprocess are modelled as effect lists / event parameters; candidate and
description payloads are opaque (Nat).
-/

namespace Wire

/-! ### Perfect negotiation per-peer state
VoiceConnection.js lines 401-416 (class PeerState), 876-878 (_isPolite),
1339-1385 (_onOffer), 1387-1413 (_onAnswer), 1448-1491 (_onIceCandidate,
_addIceCandidate, _flushCandidates). -/

/-- Peer IDs are JavaScript strings; JS compares strings by UTF-16 code
units, lexicographically, so a peer ID is modelled as its list of code
units. -/
abbrev PeerId := List Nat

/-- JavaScript string comparison a < b: code unit by code unit, with a
proper prefix comparing less. -/
def strLt : PeerId → PeerId → Bool
  | _, [] => false
  | [], _ :: _ => true
  | a :: as, b :: bs =>
    if a < b then true
    else if b < a then false
    else strLt as bs

/-- RTCPeerConnection signalling states relevant to the negotiation code. -/
inductive SigState
  | stable
  | haveLocalOffer
  | haveRemoteOffer
deriving DecidableEq, Repr

/-- Per-peer negotiation state (class PeerState, lines 401-416).  The
underlying RTCPeerConnection is represented by its signalling state. -/
structure PeerState where
  peerId : PeerId
  polite : Bool
  makingOffer : Bool
  ignoreOffer : Bool
  pendingCandidates : List Nat
  remoteDescSet : Bool
  sigState : SigState
deriving DecidableEq, Repr

/-- Observable side effects of the negotiation handlers (WebRTC calls and
socket emissions). -/
inductive Effect
  | setLocalRollback
  | setRemoteDesc (payload : Nat)
  | addIceCandidate (c : Nat)
  | emitAnswer (target : PeerId)
deriving DecidableEq, Repr

/-- _isPolite (lines 876-878): the endpoint with the lexicographically
lower ID is polite. -/
def isPolite (botId remoteId : PeerId) : Bool :=
  strLt botId remoteId

/-- Fresh PeerState as built by the PeerState constructor plus the reset
performed in _getOrCreatePeerState (lines 885-906). -/
def PeerState.fresh (peerId botId : PeerId) : PeerState :=
  { peerId := peerId
    polite := isPolite botId peerId
    makingOffer := false
    ignoreOffer := false
    pendingCandidates := []
    remoteDescSet := false
    sigState := SigState.stable }

/-- _flushCandidates (lines 1483-1491): splice out all buffered candidates
and apply each in order. -/
def flushCandidates (ps : PeerState) : PeerState × List Effect :=
  ({ ps with pendingCandidates := [] },
   ps.pendingCandidates.map Effect.addIceCandidate)

/-- _onOffer (lines 1339-1385): RFC 8829 perfect negotiation.  Collision
when an offer is in flight or signalling is not stable; the impolite side
sets ignoreOffer and drops; the polite side rolls back, then the offer is
applied, buffered candidates are flushed and an answer is emitted. -/
def onOffer (ps : PeerState) (sender : PeerId) (offer : Nat) :
    PeerState × List Effect :=
  let offerCollision := ps.makingOffer || decide (ps.sigState ≠ SigState.stable)
  let ps := { ps with ignoreOffer := !ps.polite && offerCollision }
  if ps.ignoreOffer then
    (ps, [])
  else
    -- polite rollback: setLocalDescription with rollback type returns the
    -- connection to stable and the in-flight offer flag is cleared
    let rolled :=
      if offerCollision then
        ({ ps with sigState := SigState.stable, makingOffer := false },
         [Effect.setLocalRollback])
      else (ps, [])
    let ps := rolled.1
    -- setRemoteDescription(offer)
    let ps := { ps with sigState := SigState.haveRemoteOffer, remoteDescSet := true }
    let flushed := flushCandidates ps
    let ps := flushed.1
    -- createAnswer + setLocalDescription(answer) return to stable
    let ps := { ps with sigState := SigState.stable }
    (ps, rolled.2 ++ Effect.setRemoteDesc offer :: flushed.2 ++ [Effect.emitAnswer sender])

/-- _onAnswer (lines 1387-1413): ignore when already stable, otherwise
apply the remote answer, clear ignoreOffer and flush candidates. -/
def onAnswer (ps : PeerState) (answer : Nat) : PeerState × List Effect :=
  if ps.sigState = SigState.stable then
    (ps, [])
  else
    let ps := { ps with sigState := SigState.stable, remoteDescSet := true,
                        ignoreOffer := false }
    let flushed := flushCandidates ps
    (flushed.1, Effect.setRemoteDesc answer :: flushed.2)

/-- _onIceCandidate (lines 1448-1469), for a session that already exists:
candidates for ignored offers are dropped, candidates before the remote
description are buffered, later candidates are added immediately. -/
def onIceCandidate (ps : PeerState) (c : Nat) : PeerState × List Effect :=
  if ps.ignoreOffer then
    (ps, [])
  else if !ps.remoteDescSet then
    ({ ps with pendingCandidates := ps.pendingCandidates ++ [c] }, [])
  else
    (ps, [Effect.addIceCandidate c])

/-- Deliver a whole sequence of inbound candidates, keeping only the state. -/
def deliverCandidates (ps : PeerState) (cs : List Nat) : PeerState :=
  cs.foldl (fun p c => (onIceCandidate p c).1) ps

/-! ### Lemmas about the JS string order -/

theorem strLt_irrefl (a : PeerId) : strLt a a = false := by
  induction a with
  | nil => rfl
  | cons x xs ih => simp [strLt, ih]

theorem not_peerId_lt_nil (l : PeerId) : ¬ l < ([] : PeerId) := by
  intro h
  nomatch h

/-- The executable JS comparison agrees with the mathematical lexicographic
order on lists of code units. -/
theorem strLt_iff_lt (a b : PeerId) : strLt a b = true ↔ a < b := by
  induction a generalizing b with
  | nil =>
    cases b with
    | nil =>
      simp only [strLt, Bool.false_eq_true, false_iff]
      exact not_peerId_lt_nil []
    | cons y ys =>
      simp only [strLt, true_iff]
      exact List.Lex.nil
  | cons x xs ih =>
    cases b with
    | nil =>
      simp only [strLt, Bool.false_eq_true, false_iff]
      exact not_peerId_lt_nil (x :: xs)
    | cons y ys =>
      rcases lt_trichotomy x y with hxy | hxy | hxy
      · simp only [strLt, if_pos hxy, true_iff]
        exact List.Lex.rel hxy
      · subst hxy
        simp only [strLt, if_neg (lt_irrefl x), ih]
        constructor
        · intro h
          exact List.Lex.cons h
        · intro h
          cases h with
          | cons h3 => exact h3
          | rel h2 => exact absurd h2 (lt_irrefl x)
      · have hyx : ¬ x < y := not_lt_of_gt hxy
        simp only [strLt, if_neg hyx, if_pos hxy, Bool.false_eq_true, false_iff]
        intro h
        cases h with
        | cons h3 => exact absurd hxy (lt_irrefl x)
        | rel h2 => exact hyx h2

theorem strLt_asymm (a b : PeerId) (h : strLt a b = true) : strLt b a = false := by
  induction a generalizing b with
  | nil =>
    cases b with
    | nil => rfl
    | cons y ys => rfl
  | cons x xs ih =>
    cases b with
    | nil => exact absurd h (by simp [strLt])
    | cons y ys =>
      rcases lt_trichotomy x y with hxy | hxy | hxy
      · simp [strLt, if_pos hxy, not_lt_of_gt hxy]
      · subst hxy
        simp only [strLt, lt_irrefl, if_neg (lt_irrefl x)] at h ⊢
        exact ih ys h
      · simp only [strLt, if_neg (not_lt_of_gt hxy), if_pos hxy] at h
        exact Bool.noConfusion h

theorem strLt_total_of_ne (a b : PeerId) (h : a ≠ b) :
    strLt a b = true ∨ strLt b a = true := by
  induction a generalizing b with
  | nil =>
    cases b with
    | nil => exact absurd rfl h
    | cons y ys => exact Or.inl rfl
  | cons x xs ih =>
    cases b with
    | nil => exact Or.inr rfl
    | cons y ys =>
      rcases lt_trichotomy x y with hxy | hxy | hxy
      · exact Or.inl (by simp [strLt, if_pos hxy])
      · subst hxy
        have hne : xs ≠ ys := by
          intro h2
          exact h (by rw [h2])
        rcases ih ys hne with h2 | h2
        · exact Or.inl (by simp [strLt, lt_irrefl, h2])
        · exact Or.inr (by simp [strLt, lt_irrefl, h2])
      · exact Or.inr (by simp [strLt, if_pos hxy])

/-- C2: the polite flag is true exactly when the local ID is
lexicographically smaller than the remote ID, and for two distinct IDs
exactly one of the two endpoints computes polite = true. -/
theorem isPolite_lex_and_unique (a b : PeerId) (h : a ≠ b) :
    (isPolite a b = true ↔ a < b) ∧
    ((isPolite a b = true ∧ isPolite b a = false) ∨
     (isPolite a b = false ∧ isPolite b a = true)) := by
  refine ⟨strLt_iff_lt a b, ?_⟩
  rcases strLt_total_of_ne a b h with h2 | h2
  · exact Or.inl ⟨h2, strLt_asymm a b h2⟩
  · exact Or.inr ⟨strLt_asymm b a h2, h2⟩

/-- Concrete check of isPolite_lex_and_unique on the IDs of spec scenario 2
(code units of the strings used there). -/
theorem isPolite_lex_and_unique_witness :
    (isPolite [98, 111, 116] [117, 115, 114] = true ↔
      ([98, 111, 116] : PeerId) < [117, 115, 114]) ∧
    ((isPolite [98, 111, 116] [117, 115, 114] = true ∧
      isPolite [117, 115, 114] [98, 111, 116] = false) ∨
     (isPolite [98, 111, 116] [117, 115, 114] = false ∧
      isPolite [117, 115, 114] [98, 111, 116] = true)) :=
  isPolite_lex_and_unique [98, 111, 116] [117, 115, 114] (by decide)

/-! ### C1: inbound offer handling -/

/-- C1: on an inbound offer, with collision = making_offer ∨ signalling
state not stable: an impolite session under collision only sets
ignore_offer and produces no WebRTC or signalling effect; a polite session
under collision first rolls the local description back and clears
making_offer; and every non-ignored case applies the remote offer, sets
remote_desc_set, flushes the buffered candidates in order and emits an
answer addressed to the sender. -/
theorem onOffer_perfect_negotiation (ps : PeerState) (sender : PeerId) (offer : Nat) :
    ((ps.makingOffer = true ∨ ps.sigState ≠ SigState.stable) → ps.polite = false →
        onOffer ps sender offer = ({ ps with ignoreOffer := true }, [])) ∧
    ((ps.makingOffer = true ∨ ps.sigState ≠ SigState.stable) → ps.polite = true →
        onOffer ps sender offer =
          ({ ps with ignoreOffer := false, makingOffer := false,
                     sigState := SigState.stable, remoteDescSet := true,
                     pendingCandidates := [] },
           Effect.setLocalRollback :: Effect.setRemoteDesc offer ::
             (ps.pendingCandidates.map Effect.addIceCandidate ++
               [Effect.emitAnswer sender]))) ∧
    (¬ (ps.makingOffer = true ∨ ps.sigState ≠ SigState.stable) →
        onOffer ps sender offer =
          ({ ps with ignoreOffer := false,
                     sigState := SigState.stable, remoteDescSet := true,
                     pendingCandidates := [] },
           Effect.setRemoteDesc offer ::
             (ps.pendingCandidates.map Effect.addIceCandidate ++
               [Effect.emitAnswer sender]))) := by
  obtain ⟨pid, pol, mo, io, pend, rds, ss⟩ := ps
  refine ⟨?_, ?_, ?_⟩
  · rintro hcol rfl
    cases mo with
    | true => rfl
    | false =>
      rcases hcol with h | h
      · exact Bool.noConfusion h
      · cases ss with
        | stable => exact absurd rfl h
        | haveLocalOffer => rfl
        | haveRemoteOffer => rfl
  · rintro hcol rfl
    cases mo with
    | true => rfl
    | false =>
      rcases hcol with h | h
      · exact Bool.noConfusion h
      · cases ss with
        | stable => exact absurd rfl h
        | haveLocalOffer => rfl
        | haveRemoteOffer => rfl
  · intro hcol
    push_neg at hcol
    obtain ⟨hm, hs⟩ := hcol
    cases mo with
    | true => exact absurd rfl hm
    | false =>
      cases ss with
      | stable => cases pol <;> rfl
      | haveLocalOffer => exact absurd hs (by simp)
      | haveRemoteOffer => exact absurd hs (by simp)

/-- Concrete runs of onOffer_perfect_negotiation: an impolite collision, a
polite collision and a collision-free offer. -/
theorem onOffer_perfect_negotiation_witness :
    (onOffer ⟨[5], false, true, false, [7], false, SigState.stable⟩ [9] 3 =
      (⟨[5], false, true, true, [7], false, SigState.stable⟩, [])) ∧
    (onOffer ⟨[5], true, true, false, [7, 8], false, SigState.haveLocalOffer⟩ [9] 3 =
      (⟨[5], true, false, false, [], true, SigState.stable⟩,
       [Effect.setLocalRollback, Effect.setRemoteDesc 3,
        Effect.addIceCandidate 7, Effect.addIceCandidate 8,
        Effect.emitAnswer [9]])) ∧
    (onOffer ⟨[5], false, false, false, [7], false, SigState.stable⟩ [9] 3 =
      (⟨[5], false, false, false, [], true, SigState.stable⟩,
       [Effect.setRemoteDesc 3, Effect.addIceCandidate 7,
        Effect.emitAnswer [9]])) := by
  refine ⟨?_, ?_, ?_⟩
  · exact (onOffer_perfect_negotiation _ [9] 3).1 (Or.inl rfl) rfl
  · exact (onOffer_perfect_negotiation _ [9] 3).2.1 (Or.inl rfl) rfl
  · exact (onOffer_perfect_negotiation _ [9] 3).2.2 (by simp)

/-! ### C3: ICE candidate buffering and flushing -/

/-- Buffering a sequence of candidates while no remote description is set
and the offer is not ignored appends them in arrival order. -/
theorem deliverCandidates_buffers (ps : PeerState) (cs : List Nat)
    (h1 : ps.ignoreOffer = false) (h2 : ps.remoteDescSet = false) :
    deliverCandidates ps cs = { ps with pendingCandidates := ps.pendingCandidates ++ cs } := by
  induction cs generalizing ps with
  | nil => simp [deliverCandidates]
  | cons c cs ih =>
    have step : (onIceCandidate ps c).1 =
        { ps with pendingCandidates := ps.pendingCandidates ++ [c] } := by
      simp [onIceCandidate, h1, h2]
    show deliverCandidates (onIceCandidate ps c).1 cs = _
    rw [step, ih { ps with pendingCandidates := ps.pendingCandidates ++ [c] } h1 h2]
    simp

/-- C3: a candidate arriving with ignore_offer set is dropped; before the
remote description it is buffered; after it it is added immediately; a
buffered sequence is appended in order, and the flush performed right
after set_remote_description (offer path as in onOffer, answer path shown
here) applies the buffer in order exactly once, leaving it empty. -/
theorem candidate_buffering_flush (ps : PeerState) (c ans : Nat) (cs : List Nat) :
    (ps.ignoreOffer = true → onIceCandidate ps c = (ps, [])) ∧
    (ps.ignoreOffer = false → ps.remoteDescSet = false →
      onIceCandidate ps c =
        ({ ps with pendingCandidates := ps.pendingCandidates ++ [c] }, [])) ∧
    (ps.ignoreOffer = false → ps.remoteDescSet = true →
      onIceCandidate ps c = (ps, [Effect.addIceCandidate c])) ∧
    (ps.ignoreOffer = false → ps.remoteDescSet = false →
      deliverCandidates ps cs =
        { ps with pendingCandidates := ps.pendingCandidates ++ cs }) ∧
    (flushCandidates ps =
      ({ ps with pendingCandidates := [] },
       ps.pendingCandidates.map Effect.addIceCandidate)) ∧
    (flushCandidates (flushCandidates ps).1 = ((flushCandidates ps).1, [])) ∧
    (ps.sigState ≠ SigState.stable →
      onAnswer ps ans =
        ({ ps with sigState := SigState.stable, remoteDescSet := true,
                   ignoreOffer := false, pendingCandidates := [] },
         Effect.setRemoteDesc ans ::
           ps.pendingCandidates.map Effect.addIceCandidate)) := by
  refine ⟨?_, ?_, ?_, ?_, ?_, ?_, ?_⟩
  · intro h
    simp [onIceCandidate, h]
  · intro h1 h2
    simp [onIceCandidate, h1, h2]
  · intro h1 h2
    simp [onIceCandidate, h1, h2]
  · intro h1 h2
    exact deliverCandidates_buffers ps cs h1 h2
  · rfl
  · simp [flushCandidates]
  · intro h
    simp [onAnswer, h, flushCandidates]

/-- Concrete run of candidate_buffering_flush: buffer two candidates, then
flush on the answer path. -/
theorem candidate_buffering_flush_witness :
    (deliverCandidates ⟨[5], true, false, false, [], false, SigState.haveLocalOffer⟩
        [11, 12] =
      ⟨[5], true, false, false, [11, 12], false, SigState.haveLocalOffer⟩) ∧
    (onAnswer ⟨[5], true, false, false, [11, 12], false, SigState.haveLocalOffer⟩ 4 =
      (⟨[5], true, false, false, [], true, SigState.stable⟩,
       [Effect.setRemoteDesc 4, Effect.addIceCandidate 11,
        Effect.addIceCandidate 12])) := by
  constructor
  · have h := (candidate_buffering_flush
      ⟨[5], true, false, false, [], false, SigState.haveLocalOffer⟩ 0 0 [11, 12]).2.2.2.1
    simpa using h rfl rfl
  · have h := (candidate_buffering_flush
      ⟨[5], true, false, false, [11, 12], false, SigState.haveLocalOffer⟩ 0 4 []).2.2.2.2.2.2
    simpa using h (by simp)

/-! ### C4: the connected announcement
VoiceConnection.js lines 947-963 (onconnectionstatechange) and 1415-1446
(_pollForConnected).  The latched announcement body (check and set
_peerJoinEmitted, call _onPeerConnected, emit peerJoin) is shared by the
event handler and the poll; the poll timeout path at lines 1423-1427 calls
_onPeerConnected directly. -/

/-- RTCPeerConnection connection states. -/
inductive ConnState
  | new
  | connecting
  | connected
  | failed
  | closed
deriving DecidableEq, Repr

/-- One session lifetime as observed by the announcement machinery.
polls holds the attempt counter of each in-flight _pollForConnected chain;
joinEmits counts emissions of the peerJoin event; announceCalls counts
invocations of _onPeerConnected (which unpauses media). -/
structure SessLife where
  connState : ConnState
  peerJoinEmitted : Bool
  polls : List Nat
  joinEmits : Nat
  announceCalls : Nat
deriving DecidableEq, Repr

def SessLife.init : SessLife :=
  ⟨ConnState.new, false, [], 0, 0⟩

/-- Shared latched announcement (lines 953-958 and 1434-1439): only when
_peerJoinEmitted is still false, set it, call _onPeerConnected and emit
peerJoin. -/
def announceLatched (s : SessLife) : SessLife :=
  if s.peerJoinEmitted then s
  else { s with peerJoinEmitted := true,
                announceCalls := s.announceCalls + 1,
                joinEmits := s.joinEmits + 1 }

def removePoll (polls : List Nat) (i : Nat) : List Nat :=
  polls.take i ++ polls.drop (i + 1)

/-- Events interleaved during a session lifetime: a connection-state
change, the start of a _pollForConnected chain (from the offer or answer
path), and the 250 ms timer of the i-th in-flight poll firing. -/
inductive LifeEv
  | stateChange (c : ConnState)
  | startPoll
  | pollTick (i : Nat)
deriving DecidableEq, Repr

/-- One step of the announcement state machine.  A poll tick re-reads the
connection state; on timeout (attempts reaching MAX = 40) the code calls
_onPeerConnected without consulting or setting the latch and without
emitting peerJoin (lines 1423-1427). -/
def stepLife (s : SessLife) : LifeEv → SessLife
  | .stateChange c =>
    let s2 := { s with connState := c }
    if c = ConnState.connected then announceLatched s2 else s2
  | .startPoll => { s with polls := s.polls ++ [0] }
  | .pollTick i =>
    match s.polls.get? i with
    | none => s
    | some a =>
      if s.connState = ConnState.connected then
        announceLatched { s with polls := removePoll s.polls i }
      else if s.connState = ConnState.failed ∨ s.connState = ConnState.closed then
        { s with polls := removePoll s.polls i }
      else if a + 1 ≥ 40 then
        { s with polls := removePoll s.polls i,
                 announceCalls := s.announceCalls + 1 }
      else
        { s with polls := s.polls.set i (a + 1) }

def runLife (s : SessLife) (evs : List LifeEv) : SessLife :=
  evs.foldl stepLife s

/-- Invariant tying the peerJoin emission count to the latch. -/
def LifeInv (s : SessLife) : Prop :=
  (s.peerJoinEmitted = false → s.joinEmits = 0) ∧ s.joinEmits ≤ 1

theorem announceLatched_inv (s : SessLife) (h : LifeInv s) :
    LifeInv (announceLatched s) := by
  obtain ⟨h0, h1⟩ := h
  unfold announceLatched
  by_cases hp : s.peerJoinEmitted = true
  · rw [if_pos hp]
    exact ⟨h0, h1⟩
  · rw [if_neg hp]
    have hpf : s.peerJoinEmitted = false := by simpa using hp
    constructor
    · intro h2
      simp at h2
    · simp [LifeInv, h0 hpf]

theorem stepLife_inv (s : SessLife) (e : LifeEv) (h : LifeInv s) :
    LifeInv (stepLife s e) := by
  obtain ⟨h0, h1⟩ := h
  cases e with
  | stateChange c =>
    simp only [stepLife]
    split
    · exact announceLatched_inv _ ⟨h0, h1⟩
    · exact ⟨h0, h1⟩
  | startPoll => exact ⟨h0, h1⟩
  | pollTick i =>
    simp only [stepLife]
    cases hg : s.polls.get? i with
    | none => exact ⟨h0, h1⟩
    | some a =>
      dsimp only
      by_cases hc : s.connState = ConnState.connected
      · rw [if_pos hc]
        exact announceLatched_inv _ ⟨h0, h1⟩
      · rw [if_neg hc]
        by_cases hf : s.connState = ConnState.failed ∨ s.connState = ConnState.closed
        · rw [if_pos hf]
          exact ⟨h0, h1⟩
        · rw [if_neg hf]
          by_cases ht : a + 1 ≥ 40
          · rw [if_pos ht]
            exact ⟨h0, h1⟩
          · rw [if_neg ht]
            exact ⟨h0, h1⟩

/-- C4 (amended): across every interleaving of connection-state-change
events and connected-poll timers, the latched announcement — the peerJoin
emission — happens at most once per session lifetime.  (The poll timeout
path bypasses the latch; see the counterexample.) -/
theorem connected_announcement_latched_once (evs : List LifeEv) :
    (runLife SessLife.init evs).joinEmits ≤ 1 := by
  have main : ∀ (l : List LifeEv) (s : SessLife), LifeInv s → LifeInv (runLife s l) := by
    intro l
    induction l with
    | nil => exact fun s h => h
    | cons e rest ih => exact fun s h => ih (stepLife s e) (stepLife_inv s e h)
  exact (main evs SessLife.init ⟨fun _ => rfl, Nat.zero_le 1⟩).2

/-- C4 counterexample: a poll started by an offer times out after 40
attempts while the connection is still in the connecting state, forcing a
media-unpause announcement without the latch; when the connection then
reaches connected, the latched announcement fires as well.  The
announcement action thus runs twice within one session lifetime (the
peerJoin emission itself stays latched at one). -/
theorem connected_announcement_counterexample :
    (runLife SessLife.init
      ([LifeEv.startPoll, LifeEv.stateChange ConnState.connecting] ++
        List.replicate 40 (LifeEv.pollTick 0) ++
        [LifeEv.stateChange ConnState.connected])).announceCalls = 2 ∧
    (runLife SessLife.init
      ([LifeEv.startPoll, LifeEv.stateChange ConnState.connecting] ++
        List.replicate 40 (LifeEv.pollTick 0) ++
        [LifeEv.stateChange ConnState.connected])).joinEmits = 1 := by
  constructor
  · rfl
  · rfl

/-! ### Admission control and the tiered connection queue
VoiceConnection.js lines 466-483 (fields and _tierConfig), 528-534
(_getTierConfig), 540-554 (_canAcceptPeer), 559-566 (setPeerPriority),
1215-1249 (_queueConnection), 1255-1301 (_processConnectionQueue),
1308-1333 (_offerTo).  Peer IDs are abstract (Nat).  The pump loop is
modelled by pumpStart / pumpIter / pumpEnd events so that any interleaving
with queueing, the 3 s decrement timers and time passing is covered. -/

structure Tier where
  maxPeers : Nat
  concurrent : Nat
  cooldown : Nat
  staggerBase : Nat
  staggerPerPeer : Nat
deriving DecidableEq, Repr

def smallTier : Tier := ⟨10, 2, 1000, 300, 200⟩

def mediumTier : Tier := ⟨25, 2, 1500, 800, 400⟩

def largeTier : Tier := ⟨50, 1, 2000, 1500, 600⟩

def massiveTier : Tier := ⟨100, 1, 3000, 2500, 800⟩

/-- _getTierConfig (lines 528-534), as a function of
peers.size + connectionQueue.length. -/
def getTierConfig (count : Nat) : Tier :=
  if count ≤ smallTier.maxPeers then smallTier
  else if count ≤ mediumTier.maxPeers then mediumTier
  else if count ≤ largeTier.maxPeers then largeTier
  else massiveTier

def maxConnectedPeers : Nat := 100

/-- The slice of a PeerState the admission machinery inspects. -/
structure Sess where
  connState : ConnState
  makingOffer : Bool
deriving DecidableEq, Repr

/-- Admission-machinery state of a VoiceConnection.  cooldowns models the
JS Map by prepending on set and taking the first hit on get; pumping is
_isConnecting; pumpMax is the tier.concurrent captured when the running
pump started; pendingDecs counts outstanding 3 s decrement timers. -/
structure AdmState where
  peers : List (Nat × Sess)
  queue : List Nat
  activeNegotiations : Nat
  cooldowns : List (Nat × Nat)
  priority : List Nat
  pumping : Bool
  pumpMax : Nat
  pendingDecs : Nat
  now : Nat
deriving DecidableEq, Repr

def admInit : AdmState := ⟨[], [], 0, [], [], false, 0, 0, 0⟩

def lookupSess (peers : List (Nat × Sess)) (pid : Nat) : Option Sess :=
  (peers.find? (fun p => p.1 == pid)).map (fun p => p.2)

def tierCount (s : AdmState) : Nat := s.peers.length + s.queue.length

def currentTier (s : AdmState) : Tier := getTierConfig (tierCount s)

/-- _canAcceptPeer (lines 540-554): priority peers always pass; otherwise
the hard limit of 100 applies to the current peer-map size. -/
def canAcceptPeer (s : AdmState) (pid : Nat) : Bool :=
  if s.priority.contains pid then true
  else if s.peers.length ≥ maxConnectedPeers then false
  else true

/-- Cooldown gate of _queueConnection (lines 1223-1228). -/
def onCooldown (s : AdmState) (pid : Nat) (tier : Tier) : Bool :=
  match s.cooldowns.find? (fun p => p.1 == pid) with
  | some last => s.now - last.2 < tier.cooldown
  | none => false

/-- _queueConnection (lines 1215-1249): capacity, cooldown and
de-duplication gates, then push onto the queue.  (The trailing call to
_processConnectionQueue is modelled by separate pump events.) -/
def queueConnection (s : AdmState) (pid : Nat) : AdmState :=
  if !canAcceptPeer s pid then s
  else if onCooldown s pid (currentTier s) then s
  else if s.queue.contains pid then s
  else
    match lookupSess s.peers pid with
    | some sess =>
      if sess.connState = ConnState.connected ∨ sess.connState = ConnState.connecting then s
      else { s with queue := s.queue ++ [pid] }
    | none => { s with queue := s.queue ++ [pid] }

/-- Body shared by _processConnectionQueue after the dequeue checks pass:
increment activeNegotiations, record the cooldown, then _offerTo
(lines 1275-1285 and 1308-1333).  _offerTo decrements again when the peer
is already connected/connecting or an offer is in flight; otherwise
_getOrCreatePeerState ensures a session exists (new entry only when the
peer is absent) and the 3 s decrement timer is scheduled. -/
def offerAdmit (s : AdmState) (pid : Nat) : AdmState :=
  -- activeNegotiations++ and cooldown happen first; _offerTo then either
  -- decrements again (Math.max(0, n - 1), here n + 1 - 1) or leaves the
  -- incremented counter with a pending 3 s decrement timer
  match lookupSess s.peers pid with
  | some sess =>
    if sess.connState = ConnState.connected ∨ sess.connState = ConnState.connecting then
      { s with activeNegotiations := s.activeNegotiations + 1 - 1,
               cooldowns := (pid, s.now) :: s.cooldowns }
    else if sess.makingOffer then
      { s with activeNegotiations := s.activeNegotiations + 1 - 1,
               cooldowns := (pid, s.now) :: s.cooldowns }
    else
      { s with activeNegotiations := s.activeNegotiations + 1,
               cooldowns := (pid, s.now) :: s.cooldowns,
               pendingDecs := s.pendingDecs + 1 }
  | none =>
    { s with activeNegotiations := s.activeNegotiations + 1,
             cooldowns := (pid, s.now) :: s.cooldowns,
             peers := s.peers ++ [(pid, ⟨ConnState.new, false⟩)],
             pendingDecs := s.pendingDecs + 1 }

/-- _processConnectionQueue entry (lines 1256-1260): single-flight guard
and capture of tier.concurrent for this pump run. -/
def pumpStart (s : AdmState) : AdmState :=
  if s.pumping then s
  else { s with pumping := true, pumpMax := (currentTier s).concurrent }

/-- One iteration of the while loop (lines 1262-1292): runs only while the
pump is active, the queue is non-empty and activeNegotiations is below the
captured limit; pops the head, re-checks the session state (lines
1266-1273), then admits. -/
def pumpIter (s : AdmState) : AdmState :=
  if !s.pumping then s
  else if s.activeNegotiations ≥ s.pumpMax then s
  else
    match s.queue with
    | [] => s
    | pid :: rest =>
      match lookupSess s.peers pid with
      | some sess =>
        if sess.connState = ConnState.connected ∨
            sess.connState = ConnState.connecting ∨ sess.makingOffer then
          { s with queue := rest }
        else offerAdmit { s with queue := rest } pid
      | none => offerAdmit { s with queue := rest } pid

/-- Loop exit (line 1295): _isConnecting is cleared once the loop
condition fails. -/
def pumpEnd (s : AdmState) : AdmState :=
  if s.pumping ∧ (s.queue.isEmpty ∨ s.activeNegotiations ≥ s.pumpMax) then
    { s with pumping := false }
  else s

/-- The 3 s timer of _offerTo firing (lines 1328-1332):
Math.max(0, n - 1) is Nat subtraction. -/
def decFire (s : AdmState) : AdmState :=
  if s.pendingDecs = 0 then s
  else { s with pendingDecs := s.pendingDecs - 1,
                activeNegotiations := s.activeNegotiations - 1 }

/-- setPeerPriority (lines 559-566). -/
def setPeerPriority (s : AdmState) (pid : Nat) (isPriority : Bool) : AdmState :=
  if isPriority then { s with priority := pid :: s.priority }
  else { s with priority := s.priority.erase pid }

inductive AdmEv
  | queueConn (pid : Nat)
  | pumpStart
  | pumpIter
  | pumpEnd
  | decFire
  | tick (dt : Nat)
  | setPriority (pid : Nat) (isPriority : Bool)
deriving DecidableEq, Repr

def stepAdm (s : AdmState) : AdmEv → AdmState
  | .queueConn pid => queueConnection s pid
  | .pumpStart => pumpStart s
  | .pumpIter => pumpIter s
  | .pumpEnd => pumpEnd s
  | .decFire => decFire s
  | .tick dt => { s with now := s.now + dt }
  | .setPriority pid b => setPeerPriority s pid b

def runAdm (s : AdmState) (evs : List AdmEv) : AdmState :=
  evs.foldl stepAdm s

/-! ### C5: admission capacity and priority bypass -/

/-- C5 (amended): a priority peer always passes the capacity gate; a
non-priority peer presented while the peer map holds at least 100 entries
is rejected by _canAcceptPeer and _queueConnection leaves the state
entirely unchanged (no queueing, no session, no error).  The capacity
check happens only at presentation time, so the map can still pass 100
through non-priority peers that were queued earlier (see the
counterexample). -/
theorem admission_cap_and_priority (s : AdmState) (pid : Nat) :
    (s.priority.contains pid = true → canAcceptPeer s pid = true) ∧
    (s.priority.contains pid = false → maxConnectedPeers ≤ s.peers.length →
      canAcceptPeer s pid = false ∧ queueConnection s pid = s) := by
  constructor
  · intro h
    unfold canAcceptPeer
    rw [if_pos h]
  · intro h hlen
    have hnp : ¬ (s.priority.contains pid = true) := by
      intro hc
      rw [h] at hc
      exact Bool.noConfusion hc
    have hca : canAcceptPeer s pid = false := by
      unfold canAcceptPeer
      rw [if_neg hnp, if_pos hlen]
    refine ⟨hca, ?_⟩
    unfold queueConnection
    rw [if_pos (by rw [hca]; rfl)]

/-- A peer map already holding the 100 allowed entries. -/
def fullState : AdmState :=
  ⟨(List.range 100).map (fun i => (i, ⟨ConnState.new, false⟩)),
   [], 0, [], [], false, 0, 0, 0⟩

/-- Concrete run of admission_cap_and_priority: peer 100 is rejected at
the full map, and after setPeerPriority the same peer passes the gate. -/
theorem admission_cap_and_priority_witness :
    (canAcceptPeer fullState 100 = false ∧ queueConnection fullState 100 = fullState) ∧
    canAcceptPeer (setPeerPriority fullState 100 true) 100 = true := by
  constructor
  · exact (admission_cap_and_priority fullState 100).2 (by decide) (by decide)
  · exact (admission_cap_and_priority (setPeerPriority fullState 100 true) 100).1
      (by decide)

/-- One admission round for a fresh peer: queue it, run the pump once,
let the 3 s decrement timer fire. -/
def freshRound (pid : Nat) : List AdmEv :=
  [AdmEv.queueConn pid, AdmEv.pumpStart, AdmEv.pumpIter, AdmEv.pumpEnd,
   AdmEv.decFire]

/-- Tail of the overflow scenario: with 98 peers admitted, peer 98 starts
negotiating (its decrement timer still pending), peers 99 and 100 are
queued while the map holds 99 entries, and the pump then admits both
without any capacity re-check. -/
def capTail : List AdmEv :=
  [AdmEv.queueConn 98, AdmEv.pumpStart, AdmEv.pumpIter, AdmEv.pumpEnd,
   AdmEv.queueConn 99, AdmEv.pumpStart, AdmEv.pumpIter, AdmEv.pumpEnd,
   AdmEv.queueConn 100,
   AdmEv.decFire, AdmEv.pumpStart, AdmEv.pumpIter, AdmEv.pumpEnd,
   AdmEv.decFire, AdmEv.pumpStart, AdmEv.pumpIter, AdmEv.pumpEnd]

def capOverflowTrace : List AdmEv :=
  ((List.range 98).flatMap freshRound) ++ capTail

theorem getTierConfig_concurrent_pos (n : Nat) :
    1 ≤ (getTierConfig n).concurrent := by
  unfold getTierConfig
  split
  · decide
  · split
    · decide
    · split
      · decide
      · decide

/-- Intermediate states of one fresh admission round. -/
def rdMid2 (s : AdmState) (pid : Nat) : AdmState :=
  { s with queue := [pid], pumping := true,
           pumpMax := (getTierConfig (s.peers.length + 1)).concurrent }

def rdMid3 (s : AdmState) (pid : Nat) : AdmState :=
  { s with queue := [], pumping := true,
           pumpMax := (getTierConfig (s.peers.length + 1)).concurrent,
           activeNegotiations := s.activeNegotiations + 1,
           cooldowns := (pid, s.now) :: s.cooldowns,
           peers := s.peers ++ [(pid, ⟨ConnState.new, false⟩)],
           pendingDecs := s.pendingDecs + 1 }

def rdMid4 (s : AdmState) (pid : Nat) : AdmState :=
  { rdMid3 s pid with pumping := false }

def rdMid5 (s : AdmState) (pid : Nat) : AdmState :=
  { rdMid4 s pid with activeNegotiations := s.activeNegotiations,
                      pendingDecs := s.pendingDecs }

/-- Effect of one fresh admission round on a quiescent state. -/
theorem runAdm_freshRound (s : AdmState) (pid : Nat)
    (hq : s.queue = []) (ha : s.activeNegotiations = 0)
    (hpm : s.pumping = false)
    (hpr : s.priority = [])
    (hlk : lookupSess s.peers pid = none)
    (hcd : s.cooldowns.find? (fun p => p.1 == pid) = none)
    (hlen : s.peers.length < maxConnectedPeers) :
    runAdm s (freshRound pid) =
      { s with peers := s.peers ++ [(pid, ⟨ConnState.new, false⟩)],
               cooldowns := (pid, s.now) :: s.cooldowns,
               pumpMax := (getTierConfig (s.peers.length + 1)).concurrent } := by
  have hacc : canAcceptPeer s pid = true := by
    unfold canAcceptPeer
    rw [hpr]
    rw [if_neg (fun h => Bool.noConfusion h)]
    rw [if_neg (Nat.not_le.mpr hlen)]
  have hcool : onCooldown s pid (currentTier s) = false := by
    unfold onCooldown
    rw [hcd]
  have e1 : stepAdm s (AdmEv.queueConn pid) = { s with queue := [pid] } := by
    show queueConnection s pid = _
    unfold queueConnection
    rw [hacc, hcool, hq, hlk]
    rw [if_neg (fun h => Bool.noConfusion h)]
    rw [if_neg (fun h => Bool.noConfusion h)]
    rw [if_neg (fun h => Bool.noConfusion h)]
    rfl
  have e2 : stepAdm ({ s with queue := [pid] }) AdmEv.pumpStart = rdMid2 s pid := by
    show pumpStart _ = _
    unfold pumpStart rdMid2
    rw [if_neg (fun h => absurd h (by rw [show ({ s with queue := [pid] } : AdmState).pumping = s.pumping from rfl, hpm]; exact fun h2 => Bool.noConfusion h2))]
    unfold currentTier tierCount
    simp
  have hm := getTierConfig_concurrent_pos (s.peers.length + 1)
  have hnot : ¬ ((0 : Nat) ≥ (getTierConfig (s.peers.length + 1)).concurrent) := by
    omega
  have e3 : stepAdm (rdMid2 s pid) AdmEv.pumpIter = rdMid3 s pid := by
    show pumpIter _ = _
    unfold pumpIter rdMid2 rdMid3 offerAdmit
    simp [hlk, ha, hnot]
  have e4 : stepAdm (rdMid3 s pid) AdmEv.pumpEnd = rdMid4 s pid := by
    show pumpEnd _ = _
    unfold pumpEnd rdMid3 rdMid4
    rw [if_pos ⟨rfl, Or.inl rfl⟩]
    rfl
  have e5 : stepAdm (rdMid4 s pid) AdmEv.decFire = rdMid5 s pid := by
    show decFire _ = _
    unfold decFire rdMid5 rdMid4 rdMid3
    rw [if_neg (Nat.succ_ne_zero _)]
    simp
  show stepAdm (stepAdm (stepAdm (stepAdm (stepAdm s
    (AdmEv.queueConn pid)) AdmEv.pumpStart) AdmEv.pumpIter) AdmEv.pumpEnd)
      AdmEv.decFire = _
  rw [e1, e2, e3, e4, e5]
  unfold rdMid5 rdMid4 rdMid3
  rw [hq, hpm]

/-- Quiescent state after admitting peers 0 .. k-1 one by one. -/
def stage1 (k : Nat) : AdmState :=
  ⟨(List.range k).map (fun i => (i, ⟨ConnState.new, false⟩)), [], 0,
   (List.range k).reverse.map (fun i => (i, 0)), [], false,
   (match k with
    | 0 => 0
    | _ + 1 => (getTierConfig k).concurrent), 0, 0⟩

theorem lookupSess_stage1_fresh (k : Nat) :
    lookupSess ((List.range k).map
      (fun i => (i, (⟨ConnState.new, false⟩ : Sess)))) k = none := by
  unfold lookupSess
  rw [List.find?_eq_none.mpr ?_]
  · rfl
  · intro x hx
    obtain ⟨i, hi, rfl⟩ := List.mem_map.mp hx
    have hne : i ≠ k := Nat.ne_of_lt (List.mem_range.mp hi)
    simp [hne]

theorem cooldowns_stage1_fresh (k : Nat) :
    ((List.range k).reverse.map (fun i => (i, (0 : Nat)))).find?
      (fun p => p.1 == k) = none := by
  rw [List.find?_eq_none.mpr ?_]
  intro x hx
  obtain ⟨i, hi, rfl⟩ := List.mem_map.mp hx
  have hne : i ≠ k := Nat.ne_of_lt (List.mem_range.mp (List.mem_reverse.mp hi))
  simp [hne]

theorem stage1_round (k : Nat) (hk : k < 100) :
    runAdm (stage1 k) (freshRound k) = stage1 (k + 1) := by
  have h := runAdm_freshRound (stage1 k) k rfl rfl rfl rfl
    (lookupSess_stage1_fresh k) (cooldowns_stage1_fresh k)
    (by simpa [stage1, maxConnectedPeers] using hk)
  rw [h]
  unfold stage1
  simp [List.range_succ]

theorem stage1_all (k : Nat) (hk : k ≤ 100) :
    runAdm admInit ((List.range k).flatMap freshRound) = stage1 k := by
  induction k with
  | zero => rfl
  | succ n ih =>
    rw [List.range_succ, List.flatMap_append]
    rw [runAdm, List.foldl_append]
    rw [show List.foldl stepAdm admInit ((List.range n).flatMap freshRound) =
      runAdm admInit ((List.range n).flatMap freshRound) from rfl]
    rw [ih (Nat.le_of_succ_le hk)]
    exact stage1_round n (Nat.lt_of_succ_le hk)

set_option maxRecDepth 20000 in
/-- C5 counterexample: the dequeue path never re-checks capacity, so the
two non-priority peers queued while the map held 99 entries are both
admitted, leaving 101 sessions with an empty priority set. -/
theorem capacity_overflow_counterexample :
    (runAdm admInit capOverflowTrace).peers.length = 101 ∧
    (runAdm admInit capOverflowTrace).priority = [] := by
  have hsplit : runAdm admInit capOverflowTrace = runAdm (stage1 98) capTail := by
    show runAdm admInit (((List.range 98).flatMap freshRound) ++ capTail) = _
    rw [runAdm, List.foldl_append]
    rw [show List.foldl stepAdm admInit ((List.range 98).flatMap freshRound) =
      runAdm admInit ((List.range 98).flatMap freshRound) from rfl]
    rw [stage1_all 98 (by omega)]
    rfl
  rw [hsplit]
  constructor
  · rfl
  · rfl

/-! ### C6: the concurrency budget of the pump -/

theorem getTierConfig_concurrent_le_two (n : Nat) :
    (getTierConfig n).concurrent ≤ 2 := by
  unfold getTierConfig
  split
  · decide
  · split
    · decide
    · split
      · decide
      · decide

/-- Invariant carried through every admission event. -/
def AdmInv (s : AdmState) : Prop :=
  s.activeNegotiations ≤ 2 ∧ s.pumpMax ≤ 2

theorem queueConnection_active (s : AdmState) (pid : Nat) :
    (queueConnection s pid).activeNegotiations = s.activeNegotiations ∧
    (queueConnection s pid).pumpMax = s.pumpMax := by
  unfold queueConnection
  split
  · exact ⟨rfl, rfl⟩
  · split
    · exact ⟨rfl, rfl⟩
    · split
      · exact ⟨rfl, rfl⟩
      · cases lookupSess s.peers pid with
        | none => exact ⟨rfl, rfl⟩
        | some sess =>
          dsimp only
          split
          · exact ⟨rfl, rfl⟩
          · exact ⟨rfl, rfl⟩

theorem offerAdmit_active (s : AdmState) (pid : Nat) :
    (offerAdmit s pid).activeNegotiations ≤ s.activeNegotiations + 1 ∧
    (offerAdmit s pid).pumpMax = s.pumpMax := by
  unfold offerAdmit
  cases h : lookupSess s.peers pid with
  | none => exact ⟨Nat.le_refl _, rfl⟩
  | some sess =>
    dsimp only
    split
    · exact ⟨Nat.sub_le _ _, rfl⟩
    · split
      · exact ⟨Nat.sub_le _ _, rfl⟩
      · exact ⟨Nat.le_refl _, rfl⟩

theorem pumpIter_inv (s : AdmState) (h : AdmInv s) : AdmInv (pumpIter s) := by
  obtain ⟨h1, h2⟩ := h
  unfold pumpIter
  by_cases hp : (!s.pumping) = true
  · rw [if_pos hp]
    exact ⟨h1, h2⟩
  · rw [if_neg hp]
    by_cases hge : s.activeNegotiations ≥ s.pumpMax
    · rw [if_pos hge]
      exact ⟨h1, h2⟩
    · rw [if_neg hge]
      have hlt : s.activeNegotiations < s.pumpMax := Nat.lt_of_not_le hge
      cases hq : s.queue with
      | nil => exact ⟨h1, h2⟩
      | cons pid rest =>
        dsimp only
        have ha1 : (offerAdmit { s with queue := rest } pid).activeNegotiations ≤
            s.activeNegotiations + 1 := (offerAdmit_active _ pid).1
        have ha2 : (offerAdmit { s with queue := rest } pid).pumpMax = s.pumpMax :=
          (offerAdmit_active _ pid).2
        have hadmit : AdmInv (offerAdmit { s with queue := rest } pid) := by
          constructor
          · exact le_trans ha1 (by omega)
          · rw [ha2]
            exact h2
        cases hl : lookupSess s.peers pid with
        | none => exact hadmit
        | some sess =>
          dsimp only
          split
          · exact ⟨h1, h2⟩
          · exact hadmit

theorem stepAdm_inv (s : AdmState) (e : AdmEv) (h : AdmInv s) :
    AdmInv (stepAdm s e) := by
  obtain ⟨h1, h2⟩ := h
  cases e with
  | queueConn pid =>
    have hq := queueConnection_active s pid
    constructor
    · show (queueConnection s pid).activeNegotiations ≤ 2
      rw [hq.1]
      exact h1
    · show (queueConnection s pid).pumpMax ≤ 2
      rw [hq.2]
      exact h2
  | pumpStart =>
    show AdmInv (pumpStart s)
    unfold pumpStart
    split
    · exact ⟨h1, h2⟩
    · exact ⟨h1, getTierConfig_concurrent_le_two _⟩
  | pumpIter => exact pumpIter_inv s ⟨h1, h2⟩
  | pumpEnd =>
    show AdmInv (pumpEnd s)
    unfold pumpEnd
    split
    · exact ⟨h1, h2⟩
    · exact ⟨h1, h2⟩
  | decFire =>
    show AdmInv (decFire s)
    unfold decFire
    split
    · exact ⟨h1, h2⟩
    · exact ⟨le_trans (Nat.sub_le _ _) h1, h2⟩
  | tick dt => exact ⟨h1, h2⟩
  | setPriority pid b =>
    show AdmInv (setPeerPriority s pid b)
    unfold setPeerPriority
    split
    · exact ⟨h1, h2⟩
    · exact ⟨h1, h2⟩

/-- C6 (amended): over every sequence of queueing, pump, timer and
priority events, activeNegotiations stays at or below 2, the largest
concurrency budget of any tier; each pump run also respects the
tier.concurrent value captured when that run started (pumpIter only
admits below pumpMax).  The limit of the tier currently in effect can be
exceeded transiently when the tier escalates while negotiations are in
flight (see the counterexample). -/
theorem active_negotiations_bounded (evs : List AdmEv) :
    (runAdm admInit evs).activeNegotiations ≤ 2 := by
  have main : ∀ (l : List AdmEv) (s : AdmState), AdmInv s → AdmInv (runAdm s l) := by
    intro l
    induction l with
    | nil => exact fun s h => h
    | cons e rest ih => exact fun s h => ih (stepAdm s e) (stepAdm_inv s e h)
  exact (main evs admInit ⟨by decide, by decide⟩).1

/-- C6 counterexample: two negotiations admitted under the small tier
(limit 2) are still active when thirty further peers are queued; the tier
in effect then is large, whose limit is 1, yet activeNegotiations is 2. -/
def tierEscalationTrace : List AdmEv :=
  [AdmEv.queueConn 1, AdmEv.pumpStart, AdmEv.pumpIter, AdmEv.pumpEnd,
   AdmEv.queueConn 2, AdmEv.pumpStart, AdmEv.pumpIter, AdmEv.pumpEnd] ++
  ((List.range 30).flatMap (fun i =>
    [AdmEv.queueConn (i + 3), AdmEv.pumpStart, AdmEv.pumpIter, AdmEv.pumpEnd]))

set_option maxRecDepth 100000 in
theorem tier_limit_counterexample :
    (runAdm admInit tierEscalationTrace).activeNegotiations = 2 ∧
    (currentTier (runAdm admInit tierEscalationTrace)).concurrent = 1 := by
  constructor
  · rfl
  · rfl

/-! ### C7: participant-list dispatch
VoiceConnection.js lines 1071-1108 (_onParticipants) and 1113-1150
(_processPeerBatches).  The Math.random()*200 jitter draws are passed in
as functions; _canAcceptPeer at batch-release time is a predicate
parameter. -/

/-- The forEach of _onParticipants lines 1102-1107, carrying the running
index: peer at index i is scheduled after
staggerBase + i * staggerPerPeer + jitter i. -/
def directScheduleAux (tier : Tier) (j : Nat → Nat) :
    Nat → List PeerId → List (PeerId × Nat)
  | _, [] => []
  | i, pid :: rest =>
    (pid, tier.staggerBase + i * tier.staggerPerPeer + j i) ::
      directScheduleAux tier j (i + 1) rest

/-- The batch-splitting loop of _processPeerBatches lines 1119-1121:
for i = 0; i < len; i += batchSize, push slice(i, i + batchSize).
Structured with list-length fuel: each pass consumes at least one element
whenever batchSize is positive (batchSize = min(maxPeers, 20) is at least
10 in the source), so fuel = length reproduces the JS loop exactly. -/
def peerBatchesAux (batchSize : Nat) : Nat → List PeerId → List (List PeerId)
  | 0, _ => []
  | _, [] => []
  | fuel + 1, x :: xs =>
    (x :: xs).take batchSize ::
      peerBatchesAux batchSize fuel ((x :: xs).drop batchSize)

def peerBatches (batchSize : Nat) (l : List PeerId) : List (List PeerId) :=
  peerBatchesAux batchSize l.length l

/-- The forEach of lines 1132-1138: peers failing _canAcceptPeer at
release time are skipped, the others are scheduled relative to the batch
release instant. -/
def batchPeersSchedule (tier : Tier) (canAccept : PeerId → Bool)
    (j : Nat → Nat) (batchDelay : Nat) :
    Nat → List PeerId → List (PeerId × Nat)
  | _, [] => []
  | i, pid :: rest =>
    if canAccept pid then
      (pid, batchDelay + tier.staggerBase + i * tier.staggerPerPeer + j i) ::
        batchPeersSchedule tier canAccept j batchDelay (i + 1) rest
    else batchPeersSchedule tier canAccept j batchDelay (i + 1) rest

/-- The forEach of lines 1126-1148: batch k is released k * 5000 ms after
receipt. -/
def batchesSchedule (tier : Tier) (canAccept : PeerId → Bool)
    (j : Nat → Nat → Nat) : Nat → List (List PeerId) → List (PeerId × Nat)
  | _, [] => []
  | k, b :: rest =>
    batchPeersSchedule tier canAccept (j k) (k * 5000) 0 b ++
      batchesSchedule tier canAccept j (k + 1) rest

structure ParticipantsDispatch where
  massJoinInProgress : Bool
  schedule : List (PeerId × Nat)
  massJoinClearAt : Option Nat
deriving DecidableEq, Repr

/-- _onParticipants: count is peers.size + connectionQueue.length at
receipt (the tier input); the mass-join flag is set when more than 10
peers arrive; a list longer than tier.maxPeers is processed in batches of
min(tier.maxPeers, 20); the flag is scheduled to clear 10 s after the
last batch is released (lines 1141-1147). -/
def onParticipantsDispatch (count : Nat) (peerIds : List PeerId)
    (canAccept : PeerId → Bool) (jDirect : Nat → Nat)
    (jBatch : Nat → Nat → Nat) : ParticipantsDispatch :=
  let massJoin := decide (peerIds.length > 10)
  let tier := getTierConfig count
  if peerIds.length > tier.maxPeers then
    let batchSize := min tier.maxPeers 20
    let batches := peerBatches batchSize peerIds
    { massJoinInProgress := massJoin
      schedule := batchesSchedule tier canAccept jBatch 0 batches
      massJoinClearAt := some ((batches.length - 1) * 5000 + 10000) }
  else
    { massJoinInProgress := massJoin
      schedule := directScheduleAux tier jDirect 0 peerIds
      massJoinClearAt := none }

theorem directScheduleAux_get (tier : Tier) (j : Nat → Nat) (l : List PeerId) :
    ∀ (i0 i : Nat),
      (directScheduleAux tier j i0 l).get? i =
        (l.get? i).map (fun pid =>
          (pid, tier.staggerBase + (i0 + i) * tier.staggerPerPeer + j (i0 + i))) := by
  induction l with
  | nil =>
    intro i0 i
    simp [directScheduleAux]
  | cons pid rest ih =>
    intro i0 i
    cases i with
    | zero => simp [directScheduleAux]
    | succ n =>
      show (directScheduleAux tier j (i0 + 1) rest).get? n = _
      rw [ih (i0 + 1) n]
      have harith : i0 + 1 + n = i0 + (n + 1) := by omega
      rw [harith]
      rfl

theorem batchPeersSchedule_mem (tier : Tier) (canAccept : PeerId → Bool)
    (j : Nat → Nat) (batchDelay : Nat) (b : List PeerId) :
    ∀ (i0 i : Nat) (pid : PeerId), b.get? i = some pid →
      canAccept pid = true →
      (pid, batchDelay + tier.staggerBase + (i0 + i) * tier.staggerPerPeer +
        j (i0 + i)) ∈ batchPeersSchedule tier canAccept j batchDelay i0 b := by
  induction b with
  | nil =>
    intro i0 i pid h
    simp at h
  | cons q rest ih =>
    intro i0 i pid h hacc
    cases i with
    | zero =>
      have h2 : q = pid := by simpa using h
      rw [← h2] at hacc ⊢
      unfold batchPeersSchedule
      rw [if_pos hacc]
      simp
    | succ n =>
      have hmem := ih (i0 + 1) n pid h hacc
      have harith : i0 + 1 + n = i0 + (n + 1) := by omega
      rw [harith] at hmem
      show _ ∈ batchPeersSchedule tier canAccept j batchDelay i0 (q :: rest)
      unfold batchPeersSchedule
      by_cases hq : canAccept q = true
      · rw [if_pos hq]
        exact List.mem_cons_of_mem _ hmem
      · rw [if_neg hq]
        exact hmem

theorem batchesSchedule_mem (tier : Tier) (canAccept : PeerId → Bool)
    (j : Nat → Nat → Nat) (batches : List (List PeerId)) :
    ∀ (k0 k i : Nat) (b : List PeerId) (pid : PeerId),
      batches.get? k = some b → b.get? i = some pid → canAccept pid = true →
      (pid, (k0 + k) * 5000 + tier.staggerBase + i * tier.staggerPerPeer +
        j (k0 + k) i) ∈ batchesSchedule tier canAccept j k0 batches := by
  induction batches with
  | nil =>
    intro k0 k i b pid h
    simp at h
  | cons b0 rest ih =>
    intro k0 k i b pid hk hi hacc
    cases k with
    | zero =>
      have h2 : b0 = b := by simpa using hk
      rw [← h2] at hi
      show _ ∈ batchPeersSchedule tier canAccept (j k0) (k0 * 5000) 0 b0 ++ _
      refine List.mem_append_left _ ?_
      have hmem := batchPeersSchedule_mem tier canAccept (j k0) (k0 * 5000) b0 0 i pid hi hacc
      simpa using hmem
    | succ n =>
      have hmem := ih (k0 + 1) n i b pid hk hi hacc
      have harith : k0 + 1 + n = k0 + (n + 1) := by omega
      rw [harith] at hmem
      show _ ∈ batchPeersSchedule tier canAccept (j k0) (k0 * 5000) 0 b0 ++ _
      exact List.mem_append_right _ hmem

theorem peerBatchesAux_flatten (bs : Nat) (hbs : 0 < bs) :
    ∀ (fuel : Nat) (l : List PeerId), l.length ≤ fuel →
      (peerBatchesAux bs fuel l).flatten = l := by
  intro fuel
  induction fuel with
  | zero =>
    intro l hl
    have hnil : l = [] := List.eq_nil_of_length_eq_zero (Nat.le_zero.mp hl)
    subst hnil
    rfl
  | succ n ih =>
    intro l hl
    cases l with
    | nil => rfl
    | cons x xs =>
      show ((x :: xs).take bs ++
        (peerBatchesAux bs n ((x :: xs).drop bs)).flatten) = x :: xs
      rw [ih ((x :: xs).drop bs)
        (by simp only [List.length_drop]; simp at hl ⊢; omega)]
      exact List.take_append_drop bs (x :: xs)

theorem peerBatches_flatten (bs : Nat) (hbs : 0 < bs) (l : List PeerId) :
    (peerBatches bs l).flatten = l :=
  peerBatchesAux_flatten bs hbs l.length l (Nat.le_refl _)

theorem peerBatchesAux_sizes (bs : Nat) :
    ∀ (fuel : Nat) (l : List PeerId),
      ∀ b ∈ peerBatchesAux bs fuel l, b.length ≤ bs := by
  intro fuel
  induction fuel with
  | zero =>
    intro l b hb
    simp [peerBatchesAux] at hb
  | succ n ih =>
    intro l b hb
    cases l with
    | nil => simp [peerBatchesAux] at hb
    | cons x xs =>
      rcases List.mem_cons.mp hb with hb1 | hb2
      · subst hb1
        exact List.length_take_le bs (x :: xs)
      · exact ih ((x :: xs).drop bs) b hb2

theorem peerBatches_sizes (bs : Nat) (l : List PeerId) :
    ∀ b ∈ peerBatches bs l, b.length ≤ bs :=
  peerBatchesAux_sizes bs l.length l

theorem peerBatchesAux_get (bs : Nat) (hbs : 0 < bs) :
    ∀ (fuel : Nat) (l : List PeerId), l.length ≤ fuel → ∀ (k : Nat),
      (peerBatchesAux bs fuel l).get? k =
        if k * bs < l.length then some ((l.drop (k * bs)).take bs)
        else none := by
  intro fuel
  induction fuel with
  | zero =>
    intro l hl k
    have hnil : l = [] := List.eq_nil_of_length_eq_zero (Nat.le_zero.mp hl)
    subst hnil
    simp [peerBatchesAux]
  | succ n ih =>
    intro l hl k
    cases l with
    | nil => simp [peerBatchesAux]
    | cons x xs =>
      cases k with
      | zero =>
        rw [if_pos (by simp)]
        rw [Nat.zero_mul, List.drop_zero]
        rfl
      | succ m =>
        show (peerBatchesAux bs n ((x :: xs).drop bs)).get? m = _
        rw [ih ((x :: xs).drop bs)
          (by simp only [List.length_drop]; simp at hl ⊢; omega) m]
        rw [show (m + 1) * bs = m * bs + bs from Nat.succ_mul m bs]
        by_cases hc : m * bs + bs < (x :: xs).length
        · rw [if_pos (by simp only [List.length_drop]; omega), if_pos hc]
          rw [List.drop_drop, Nat.add_comm bs (m * bs)]
        · rw [if_neg (by simp only [List.length_drop]; omega), if_neg hc]

theorem peerBatches_get (bs : Nat) (hbs : 0 < bs) (k : Nat) (l : List PeerId) :
    (peerBatches bs l).get? k =
      if k * bs < l.length then some ((l.drop (k * bs)).take bs)
      else none :=
  peerBatchesAux_get bs hbs l.length l (Nat.le_refl _) k

theorem getTier_maxPeers_ge_ten (n : Nat) : 10 ≤ (getTierConfig n).maxPeers := by
  unfold getTierConfig
  split
  · decide
  · split
    · decide
    · split
      · decide
      · decide

/-- C7: on receipt of N participant IDs with jitters below 200 ms, if
N ≤ tier.maxPeers each peer i is scheduled after
staggerBase + i * staggerPerPeer + jitter; if N > tier.maxPeers the list
is partitioned into consecutive batches of size min(tier.maxPeers, 20),
batch k is released k * 5000 ms after receipt with the same within-batch
stagger, the mass-join flag is set, and it is scheduled to clear 10 s
after the last batch is released. -/
theorem participants_dispatch_spec (count : Nat) (peerIds : List PeerId)
    (canAccept : PeerId → Bool) (jDirect : Nat → Nat)
    (jBatch : Nat → Nat → Nat)
    (hj1 : ∀ i, jDirect i < 200) (hj2 : ∀ k i, jBatch k i < 200) :
    (peerIds.length ≤ (getTierConfig count).maxPeers →
      ∀ i pid, peerIds.get? i = some pid →
        (onParticipantsDispatch count peerIds canAccept jDirect jBatch).schedule.get? i =
          some (pid, (getTierConfig count).staggerBase +
            i * (getTierConfig count).staggerPerPeer + jDirect i) ∧
        jDirect i < 200) ∧
    ((getTierConfig count).maxPeers < peerIds.length →
      (onParticipantsDispatch count peerIds canAccept jDirect jBatch).massJoinInProgress = true ∧
      (peerBatches (min (getTierConfig count).maxPeers 20) peerIds).flatten = peerIds ∧
      (∀ b ∈ peerBatches (min (getTierConfig count).maxPeers 20) peerIds,
        b.length ≤ min (getTierConfig count).maxPeers 20) ∧
      (∀ k, (peerBatches (min (getTierConfig count).maxPeers 20) peerIds).get? k =
        if k * min (getTierConfig count).maxPeers 20 < peerIds.length then
          some ((peerIds.drop (k * min (getTierConfig count).maxPeers 20)).take
            (min (getTierConfig count).maxPeers 20))
        else none) ∧
      (∀ k b i pid,
        (peerBatches (min (getTierConfig count).maxPeers 20) peerIds).get? k = some b →
        b.get? i = some pid → canAccept pid = true →
        (pid, k * 5000 + (getTierConfig count).staggerBase +
          i * (getTierConfig count).staggerPerPeer + jBatch k i) ∈
          (onParticipantsDispatch count peerIds canAccept jDirect jBatch).schedule ∧
        jBatch k i < 200) ∧
      (onParticipantsDispatch count peerIds canAccept jDirect jBatch).massJoinClearAt =
        some (((peerBatches (min (getTierConfig count).maxPeers 20) peerIds).length - 1) *
          5000 + 10000)) := by
  have hbs : 0 < min (getTierConfig count).maxPeers 20 := by
    have := getTier_maxPeers_ge_ten count
    omega
  constructor
  · intro hle i pid hget
    have hsched :
        (onParticipantsDispatch count peerIds canAccept jDirect jBatch).schedule =
          directScheduleAux (getTierConfig count) jDirect 0 peerIds := by
      unfold onParticipantsDispatch
      rw [if_neg (by omega)]
    rw [hsched, directScheduleAux_get, hget]
    exact ⟨by simp, hj1 i⟩
  · intro hgt
    have hsched :
        onParticipantsDispatch count peerIds canAccept jDirect jBatch =
          { massJoinInProgress := decide (peerIds.length > 10)
            schedule := batchesSchedule (getTierConfig count) canAccept jBatch 0
              (peerBatches (min (getTierConfig count).maxPeers 20) peerIds)
            massJoinClearAt := some
              (((peerBatches (min (getTierConfig count).maxPeers 20) peerIds).length - 1) *
                5000 + 10000) } := by
      unfold onParticipantsDispatch
      rw [if_pos (by omega)]
    rw [hsched]
    refine ⟨?_, peerBatches_flatten _ hbs peerIds,
      peerBatches_sizes _ peerIds,
      fun k => peerBatches_get _ hbs k peerIds, ?_, rfl⟩
    · have h10 : 10 ≤ (getTierConfig count).maxPeers := getTier_maxPeers_ge_ten count
      simp only [decide_eq_true_eq]
      omega
    · intro k b i pid hk hi hacc
      have hmem := batchesSchedule_mem (getTierConfig count) canAccept jBatch
        (peerBatches (min (getTierConfig count).maxPeers 20) peerIds) 0 k i b pid hk hi hacc
      exact ⟨by simpa using hmem, hj2 k i⟩

/-- Concrete run of participants_dispatch_spec: three peers at the small
tier dispatch directly; twelve peers exceed the small tier and split into
a batch of ten and a batch of two, with the flag set and cleared
5000 + 10000 ms after receipt. -/
theorem participants_dispatch_spec_witness :
    ((onParticipantsDispatch 0 [[1], [2], [3]] (fun _ => true)
        (fun _ => 102) (fun _ _ => 50)).schedule.get? 2 =
      some ([3], 300 + 2 * 200 + 102)) ∧
    ((onParticipantsDispatch 0
        [[1], [2], [3], [4], [5], [6], [7], [8], [9], [10], [11], [12]]
        (fun _ => true) (fun _ => 102) (fun _ _ => 50)).massJoinInProgress = true) ∧
    (([12], 1 * 5000 + 300 + 1 * 200 + 50) ∈
      (onParticipantsDispatch 0
        [[1], [2], [3], [4], [5], [6], [7], [8], [9], [10], [11], [12]]
        (fun _ => true) (fun _ => 102) (fun _ _ => 50)).schedule) ∧
    ((onParticipantsDispatch 0
        [[1], [2], [3], [4], [5], [6], [7], [8], [9], [10], [11], [12]]
        (fun _ => true) (fun _ => 102) (fun _ _ => 50)).massJoinClearAt =
      some ((2 - 1) * 5000 + 10000)) := by
  have hspec1 := participants_dispatch_spec 0 [[1], [2], [3]] (fun _ => true)
    (fun _ => 102) (fun _ _ => 50) (fun _ => by change (102 : Nat) < 200; decide)
    (fun _ _ => by change (50 : Nat) < 200; decide)
  have hspec2 := participants_dispatch_spec 0
    [[1], [2], [3], [4], [5], [6], [7], [8], [9], [10], [11], [12]]
    (fun _ => true) (fun _ => 102) (fun _ _ => 50)
    (fun _ => by change (102 : Nat) < 200; decide)
    (fun _ _ => by change (50 : Nat) < 200; decide)
  refine ⟨?_, ?_, ?_, ?_⟩
  · exact (hspec1.1 (by decide) 2 [3] rfl).1
  · exact (hspec2.2 (by decide)).1
  · have h := ((hspec2.2 (by decide)).2.2.2.2.1 1 [[11], [12]] 1 [12]
      (by decide) rfl rfl).1
    exact h
  · have h := (hspec2.2 (by decide)).2.2.2.2.2
    rw [h]
    rfl

/-! ### AudioPlayer
VoiceConnection.js lines 44-49 (PCM constants) and 56-246 (class
AudioPlayer).  The ffmpeg subprocess appears through its observable
events: stdout data chunks, the close event, and spawn attempts.  Bytes
are Nats; the float volume branch of _pump is dead code at the default
volume 1.0, which nothing in the source ever changes. -/

def SAMPLE_RATE : Nat := 48000

def CHANNELS : Nat := 1

def BITS : Nat := 16

def FRAME_DURATION : Nat := 10

def FRAME_SAMPLES : Nat := SAMPLE_RATE * FRAME_DURATION / 1000

def FRAME_BYTES : Nat := FRAME_SAMPLES * CHANNELS * (BITS / 8)

structure Player where
  buf : List Nat
  stopped : Bool
  paused : Bool
  ffmpegDone : Bool
  loop : Bool
  framesSent : Nat
  bytesReceived : Nat
  spawnCount : Nat
  drainArmed : Bool
deriving DecidableEq, Repr

/-- Constructor plus start() (lines 57-82) for an existing input file:
one subprocess spawned, empty buffer, paused. -/
def Player.start (loop : Bool) : Player :=
  ⟨[], false, true, false, loop, 0, 0, 1, false⟩

inductive PlayerEv
  | sentFrame (bytes : List Nat)
  | finish
  | errorMsg (msg : String)
deriving DecidableEq, Repr

/-- unpause (lines 93-101): idempotent. -/
def unpause (p : Player) : Player :=
  if !p.paused then p else { p with paused := false }

/-- stdout data handler (lines 139-142): unconditional concatenation of
the chunk onto the buffer. -/
def onStdoutData (p : Player) (chunk : List Nat) : Player :=
  { p with buf := p.buf ++ chunk,
           bytesReceived := p.bytesReceived + chunk.length }

def noPcmMsg : String :=
  "ffmpeg produced no PCM output - check audio file and codec"

/-- close handler (lines 147-165): zero bytes received means an immediate
fixed error and return; a looping player arms the drain interval;
otherwise nothing. -/
def onFfmpegClose (p : Player) : Player × List PlayerEv :=
  let p2 := { p with ffmpegDone := true }
  if p2.bytesReceived = 0 then
    (p2, [PlayerEv.errorMsg noPcmMsg])
  else if !p2.stopped && p2.loop then
    ({ p2 with drainArmed := true }, [])
  else (p2, [])

/-- One firing of the loop drain interval (lines 156-163). -/
def onDrainTick (p : Player) : Player :=
  if !p.drainArmed then p
  else if p.stopped then { p with drainArmed := false }
  else if p.buf.length < FRAME_BYTES then
    { p with drainArmed := false, ffmpegDone := false,
             spawnCount := p.spawnCount + 1 }
  else p

/-- _spawnFfmpeg entry (lines 103-110): a path that is not an existing
file — which every HTTP URL is — produces an immediate error and no
subprocess. -/
def spawnFfmpeg (p : Player) (fileExists : Bool) (filePath : String) :
    Player × List PlayerEv :=
  if p.stopped then (p, [])
  else if !fileExists then
    (p, [PlayerEv.errorMsg ("Audio file not found: " ++ filePath)])
  else
    ({ p with ffmpegDone := false, bytesReceived := 0,
              spawnCount := p.spawnCount + 1 }, [])

/-- _pump (lines 172-238): send one whole frame when available; pad a
partial tail frame with zero bytes up to one frame; emit finish (after
stop()) when the buffer is empty, ffmpeg exited and loop is off. -/
def pump (p : Player) : Player × List PlayerEv :=
  if p.stopped || p.paused then (p, [])
  else if FRAME_BYTES ≤ p.buf.length then
    ({ p with buf := p.buf.drop FRAME_BYTES, framesSent := p.framesSent + 1 },
     [PlayerEv.sentFrame (p.buf.take FRAME_BYTES)])
  else if 0 < p.buf.length then
    ({ p with buf := p.buf ++ List.replicate (FRAME_BYTES - p.buf.length) 0 }, [])
  else if p.ffmpegDone && !p.loop && !p.stopped then
    ({ p with stopped := true, buf := [] }, [PlayerEv.finish])
  else (p, [])

/-! ### C8: the decoder buffer has no cap -/

/-- C8 (amended): the stdout handler concatenates without any cap or
drop-oldest: for every cap expressed in whole frames, a single data event
takes the buffer past it, retaining every byte. -/
theorem audio_buffer_unbounded (cap : Nat) :
    (onStdoutData (Player.start false)
      (List.replicate (FRAME_BYTES * (cap + 1)) 0)).buf =
      List.replicate (FRAME_BYTES * (cap + 1)) 0 ∧
    FRAME_BYTES * cap <
      (onStdoutData (Player.start false)
        (List.replicate (FRAME_BYTES * (cap + 1)) 0)).buf.length := by
  have hbuf : (onStdoutData (Player.start false)
      (List.replicate (FRAME_BYTES * (cap + 1)) 0)).buf =
      List.replicate (FRAME_BYTES * (cap + 1)) 0 := by
    simp [onStdoutData, Player.start]
  refine ⟨hbuf, ?_⟩
  rw [hbuf, List.length_replicate]
  have hfb : FRAME_BYTES = 960 := rfl
  rw [hfb]
  omega

/-- A run in which 1000 frames of decoder output are appended: one
960-byte chunk of 1s (the oldest frame) followed by 999 frames of 2s. -/
def overflowState : Player :=
  onStdoutData (onStdoutData (unpause (Player.start false))
    (List.replicate 960 1)) (List.replicate 959040 2)

set_option maxRecDepth 4000 in
/-- C8 counterexample: after appending 1000 frames the buffer holds all
960000 bytes with the oldest byte still at the head, and one pump tick
only consumes a single frame, leaving 999 buffered frames — no hard cap
and no oldest-frame dropping exist. -/
theorem audio_buffer_cap_counterexample :
    overflowState.buf.length = 960 * 1000 ∧
    overflowState.buf.head? = some 1 ∧
    (pump overflowState).1.buf.length = 960 * 999 ∧
    (pump overflowState).2 =
      [PlayerEv.sentFrame (overflowState.buf.take FRAME_BYTES)] := by
  have hbuf : overflowState.buf =
      List.replicate 960 1 ++ List.replicate 959040 2 := rfl
  have hlen : overflowState.buf.length = 960000 := by
    rw [hbuf, List.length_append, List.length_replicate, List.length_replicate]
  have hpump : pump overflowState =
      ({ overflowState with buf := overflowState.buf.drop FRAME_BYTES,
                            framesSent := overflowState.framesSent + 1 },
       [PlayerEv.sentFrame (overflowState.buf.take FRAME_BYTES)]) := by
    unfold pump
    rw [if_neg (fun h => Bool.noConfusion h)]
    rw [if_pos (by rw [hlen]; decide)]
  refine ⟨by rw [hlen], ?_, ?_, ?_⟩
  · rfl
  · rw [hpump]
    show (overflowState.buf.drop FRAME_BYTES).length = 960 * 999
    rw [List.length_drop, hlen]
    rfl
  · rw [hpump]

/-! ### C9: empty decoder exit is a fixed error, never a retry -/

/-- C9 (amended): when the subprocess closes having received zero bytes,
the close handler immediately emits the fixed no-PCM error message — for
looping and non-looping players alike, with no respawn and no stderr
content — and an input path that is not an existing file (every HTTP URL
included) already fails at spawn time without starting a subprocess. -/
theorem empty_close_no_retry (p : Player) (path : String)
    (h0 : p.bytesReceived = 0) :
    onFfmpegClose p = ({ p with ffmpegDone := true },
      [PlayerEv.errorMsg noPcmMsg]) ∧
    (p.stopped = false → spawnFfmpeg p false path =
      (p, [PlayerEv.errorMsg ("Audio file not found: " ++ path)])) := by
  constructor
  · unfold onFfmpegClose
    rw [if_pos h0]
  · intro hs
    unfold spawnFfmpeg
    rw [if_neg (by rw [hs]; exact fun h => Bool.noConfusion h)]
    rw [if_pos (show (!false) = true from rfl)]

/-- Concrete run of empty_close_no_retry: a player whose subprocess
produced nothing errors out at once, spawn count unchanged. -/
theorem empty_close_no_retry_witness :
    onFfmpegClose ⟨[], false, false, false, false, 0, 0, 1, false⟩ =
      (⟨[], false, false, true, false, 0, 0, 1, false⟩,
       [PlayerEv.errorMsg noPcmMsg]) ∧
    spawnFfmpeg ⟨[], false, false, false, false, 0, 0, 1, false⟩ false
        "http-url" =
      (⟨[], false, false, false, false, 0, 0, 1, false⟩,
       [PlayerEv.errorMsg ("Audio file not found: " ++ "http-url")]) := by
  have h := empty_close_no_retry
    ⟨[], false, false, false, false, 0, 0, 1, false⟩ "http-url" rfl
  exact ⟨h.1, h.2 rfl⟩

/-- C9 counterexample: an HTTP input that produced no output frames is
answered by a single fixed error event — the event list contains no
respawn, the spawn count stays 1, and the message is the constant string
(the code keeps no stderr line to embed). -/
theorem decoder_retry_counterexample :
    onFfmpegClose ⟨[], false, false, false, false, 0, 0, 1, false⟩ =
      (⟨[], false, false, true, false, 0, 0, 1, false⟩,
       [PlayerEv.errorMsg noPcmMsg]) ∧
    (onFfmpegClose ⟨[], false, false, false, false, 0, 0, 1, false⟩).1.spawnCount = 1 ∧
    noPcmMsg = "ffmpeg produced no PCM output - check audio file and codec" := by
  refine ⟨rfl, rfl, rfl⟩

/-! ### C10: partial-frame padding and the finish condition -/

/-- C10: a pump tick that finds a non-empty buffer shorter than one
960-byte frame pads it with zero-valued silence bytes to exactly one
frame and sends nothing; the padded frame is delivered on the next tick;
and a finish event is emitted only when the buffer is empty, the decoder
has exited and loop is false. -/
theorem pump_padding_and_finish (p : Player)
    (h1 : p.stopped = false) (h2 : p.paused = false)
    (h3 : 0 < p.buf.length) (h4 : p.buf.length < FRAME_BYTES) :
    pump p = ({ p with
      buf := p.buf ++ List.replicate (FRAME_BYTES - p.buf.length) 0 }, []) ∧
    (p.buf ++ List.replicate (FRAME_BYTES - p.buf.length) 0).length =
      FRAME_BYTES ∧
    pump ({ p with
        buf := p.buf ++ List.replicate (FRAME_BYTES - p.buf.length) 0 }) =
      ({ p with buf := [], framesSent := p.framesSent + 1 },
       [PlayerEv.sentFrame
         (p.buf ++ List.replicate (FRAME_BYTES - p.buf.length) 0)]) ∧
    (∀ q : Player, PlayerEv.finish ∈ (pump q).2 →
      q.buf = [] ∧ q.ffmpegDone = true ∧ q.loop = false) := by
  have hplen : (p.buf ++ List.replicate (FRAME_BYTES - p.buf.length) 0).length =
      FRAME_BYTES := by
    rw [List.length_append, List.length_replicate]
    omega
  have hcond : ¬ ((p.stopped || p.paused) = true) := by
    rw [h1, h2]
    exact fun h => Bool.noConfusion h
  refine ⟨?_, hplen, ?_, ?_⟩
  · unfold pump
    rw [if_neg hcond]
    rw [if_neg (by omega)]
    rw [if_pos h3]
  · unfold pump
    rw [if_neg (by rw [h1, h2]; exact fun h => Bool.noConfusion h)]
    rw [if_pos (by rw [hplen])]
    rw [List.take_of_length_le (by rw [hplen])]
    rw [List.drop_of_length_le (by rw [hplen])]
  · intro q hmem
    unfold pump at hmem
    split at hmem
    · simp at hmem
    · split at hmem
      · simp at hmem
      · split at hmem
        · simp at hmem
        · split at hmem
          · rename_i hb1 hb2 hb3 hb4
            have hb5 : q.buf.length = 0 := by omega
            simp only [Bool.and_eq_true] at hb4
            refine ⟨List.eq_nil_of_length_eq_zero hb5, hb4.1.1, ?_⟩
            simpa using hb4.1.2
          · simp at hmem

/-- Concrete run of pump_padding_and_finish: 100 buffered bytes are
padded to 960, the padded frame goes out on the following tick, and a
drained non-looping player with the decoder exited emits finish. -/
theorem pump_padding_and_finish_witness :
    pump ⟨List.replicate 100 7, false, false, true, false, 3, 100, 1, false⟩ =
      (⟨List.replicate 100 7 ++ List.replicate 860 0, false, false, true,
        false, 3, 100, 1, false⟩, []) ∧
    pump ⟨List.replicate 100 7 ++ List.replicate 860 0, false, false, true,
        false, 3, 100, 1, false⟩ =
      (⟨[], false, false, true, false, 4, 100, 1, false⟩,
       [PlayerEv.sentFrame (List.replicate 100 7 ++ List.replicate 860 0)]) ∧
    ((⟨[], false, false, true, false, 4, 100, 1, false⟩ : Player).buf = [] ∧
      (⟨[], false, false, true, false, 4, 100, 1, false⟩ : Player).ffmpegDone = true ∧
      (⟨[], false, false, true, false, 4, 100, 1, false⟩ : Player).loop = false) := by
  have h := pump_padding_and_finish
    ⟨List.replicate 100 7, false, false, true, false, 3, 100, 1, false⟩
    rfl rfl (by simp) (by simp [FRAME_BYTES, FRAME_SAMPLES, SAMPLE_RATE,
      FRAME_DURATION, CHANNELS, BITS])
  refine ⟨?_, ?_, ?_⟩
  · exact h.1
  · exact h.2.2.1
  · exact h.2.2.2 ⟨[], false, false, true, false, 4, 100, 1, false⟩
      (by rw [show (pump ⟨[], false, false, true, false, 4, 100, 1, false⟩).2 =
        [PlayerEv.finish] from rfl]; exact List.mem_singleton_self _)

end Wire
